import Mathlib

/-!
Verification of the Rust Exynos TRNG driver stack:
  * `rust/kernel/iopoll.rs` — the generic bounded-polling primitive
    (`read_poll_timeout!` / `readx_poll_timeout`),
  * `rust/kernel/hw_random.rs` — the hwrng registration layer and its dispatch
    trampolines,
  * `drivers/char/hw_random/exynos_trng_rust.rs` — the concrete driver
    (`ExynosTrngDevice::init` / `ExynosTrngDevice::read`).

Machine integers are modelled as `Nat`/`Int` with explicit bounds where the
source converts between widths; fallible Rust code returns `Except KError`.
The `read_poll_timeout!` loop, which in the kernel runs against real time, is
modelled as a fuel-indexed loop over two oracles: `op : Nat → α` gives the
value produced by the n-th hardware read, and `times : Nat → Nat` gives the
value `ktime::get()` returns at its j-th call (call 0 is the one taken at
entry to compute the deadline).  A result of `none` means the loop was still
running when the fuel ran out — it never stands for an error.
-/

namespace ExynosTrng

/-- Kernel error values used by this driver stack (`Error::ERANGE` etc. in the
Rust sources).  `toErrno` below gives the C-side negative errno. -/
inductive KError where
  | EINVAL
  | ERANGE
  | ENXIO_
  | ETIMEDOUT
  deriving DecidableEq, Repr

/-- The negative errno an error converts to when it crosses the C boundary
(`Error::to_kernel_errno`). -/
def KError.toErrno : KError → Int
  | .EINVAL => -22
  | .ERANGE => -34
  | .ENXIO_ => -6
  | .ETIMEDOUT => -110

/-- Observable events of one run of the `read_poll_timeout!` loop: `read n`
records that the n-th hardware read was performed, `sleep lo hi` records a
call `usleep_range(lo, hi)`. -/
inductive PollEvent where
  | read (n : Nat)
  | sleep (lo hi : Nat)
  deriving DecidableEq, Repr

/-- The oracles the polling loop runs against: `op n` is the value produced by
the n-th hardware read and `times j` is the `ktime::get()` reading at its j-th
call. -/
structure PollEnv (α : Type) where
  op : Nat → α
  times : Nat → Nat

/-- The loop body of `read_poll_timeout!` (iopoll.rs lines 45-62), fuel-indexed.
`n` is the index of the next read, `tr` the event trace so far, `deadline` the
value computed at entry as `times 0 + timeout_us`.  Each iteration reads,
breaks with the value if `cond` holds, otherwise checks
`timeout_us != 0 && ktime::get() > timeout` — on timeout it performs exactly one
last read and succeeds iff `cond` holds on it — and otherwise sleeps
`usleep_range((sleep_us >> 2) + 1, sleep_us)` when `sleep_us ≠ 0` and retries. -/
def pollLoopAux {α : Type} (env : PollEnv α) (cond : α → Bool)
    (sleep_us timeout_us deadline : Nat) :
    Nat → Nat → List PollEvent → Option (Except KError α × List PollEvent)
  | 0, _, _ => none
  | fuel + 1, n, tr =>
    let val := env.op n
    let tr := tr ++ [.read n]
    if cond val then
      some (.ok val, tr)
    else if timeout_us ≠ 0 ∧ deadline < env.times (n + 1) then
      let last := env.op (n + 1)
      let tr := tr ++ [.read (n + 1)]
      if cond last then some (.ok last, tr) else some (.error .ETIMEDOUT, tr)
    else
      let tr := if sleep_us ≠ 0 then tr ++ [.sleep ((sleep_us >>> 2) + 1) sleep_us] else tr
      pollLoopAux env cond sleep_us timeout_us deadline fuel (n + 1) tr

/-- `read_poll_timeout!` (iopoll.rs lines 31-69): computes the deadline
`ktime::get().add_us(timeout_us)`, optionally sleeps before the first read,
then runs the loop. -/
def readPollTimeout {α : Type} (env : PollEnv α) (cond : α → Bool)
    (sleep_us timeout_us : Nat) (sleepBeforeRead : Bool) (fuel : Nat) :
    Option (Except KError α × List PollEvent) :=
  let deadline := env.times 0 + timeout_us
  let tr0 : List PollEvent :=
    if sleepBeforeRead ∧ sleep_us ≠ 0 then [.sleep ((sleep_us >>> 2) + 1) sleep_us] else []
  pollLoopAux env cond sleep_us timeout_us deadline fuel 0 tr0

/-- `readx_poll_timeout` (iopoll.rs lines 87-96): `read_poll_timeout!` with
`sleep_before_read = false`. -/
def readxPollTimeout {α : Type} (env : PollEnv α) (cond : α → Bool)
    (sleep_us timeout_us : Nat) (fuel : Nat) :
    Option (Except KError α × List PollEvent) :=
  readPollTimeout env cond sleep_us timeout_us false fuel

/-- The time model the spec's poll-count characterization presupposes: each
poll cycle (read plus sleep) takes exactly `interval` time units, so the j-th
in-loop `ktime::get()` call (j ≥ 1) reads `t0 + (j - 1) * interval`. -/
def exactTimes (t0 interval : Nat) : Nat → Nat :=
  fun j => t0 + (j - 1) * interval

/-! ## The concrete driver (`exynos_trng_rust.rs`) -/

/-- Register offsets and constants of `exynos_trng_rust.rs` lines 26-46. -/
def EXYNOS_TRNG_CLKDIV : Nat := 0x0

def EXYNOS_TRNG_CTRL : Nat := 0x20

def EXYNOS_TRNG_CTRL_RNGEN : Nat := 0x1 <<< 31

def EXYNOS_REG_SIZE : Nat := 0x100

def EXYNOS_TRNG_POST_CTRL : Nat := 0x30

def EXYNOS_TRNG_FIFO_CTRL : Nat := 0x50

def EXYNOS_TRNG_FIFO_0 : Nat := 0x80

def EXYNOS_TRNG_FIFO_LEN : Nat := 8

def EXYNOS_TRNG_CLOCK_RATE : Nat := 500000

/-- `usize::try_into::<u32>() -> Result<u32>` followed by `?`: succeeds iff the
value fits in 32 bits, otherwise surfaces as `EINVAL` (the kernel crate's
conversion of `TryFromIntError`). -/
def tryIntoU32 (n : Nat) : Except KError Nat :=
  if n < 2 ^ 32 then .ok n else .error .EINVAL

/-- Observable MMIO events of one driver operation: `write off v` is a
`writel_relaxed(v, off)`, `poll off s t evs` is a `readl_poll_timeout` on
register `off` with sleep interval `s` and timeout budget `t` whose inner poll
trace was `evs`, and `copy off len` is a `try_memcpy_fromio` of `len` bytes
starting at window offset `off`. -/
inductive MmioEvent where
  | write (offset value : Nat)
  | poll (offset sleep_us timeout_us : Nat) (events : List PollEvent)
  | copy (offset len : Nat)
  deriving DecidableEq, Repr

/-- Hardware oracle for the TRNG register window: `fifoCtrl n` is the value the
n-th poll read of the FIFO-control register returns, and `mem i` is the device
byte at window byte offset `i` as seen by a bulk copy. -/
structure TrngHw where
  fifoCtrl : Nat → Nat
  mem : Nat → Nat

/-- Modelled from the spec: `IoMem::try_memcpy_fromio` lives in
`rust/kernel/io_mem.rs`, which is not part of this tree — per §3/§4.2 it is a
"bulk copy-from-device bounded-checked against the window": requests exceeding
the mapped window fail with OutOfRange (surfaced as `EINVAL`), otherwise the
first `len` bytes of `data` are replaced by the device bytes starting at
`offset`. -/
def tryMemcpyFromio (size : Nat) (hw : TrngHw) (data : List Nat) (len offset : Nat) :
    Except KError (List Nat) :=
  if offset + len ≤ size then
    .ok ((List.range len).map (fun i => hw.mem (offset + i)) ++ data.drop len)
  else
    .error .EINVAL

/-- Modelled from the spec: `IoMem::readl_poll_timeout` lives in
`rust/kernel/io_mem.rs`, which is not part of this tree — it polls the 32-bit
register at the given offset through `readx_poll_timeout` (iopoll.rs), i.e.
with `sleep_before_read = false`. -/
def readlPollTimeout (regReads : Nat → Nat) (times : Nat → Nat) (cond : Nat → Bool)
    (sleep_us timeout_us fuel : Nat) :
    Option (Except KError Nat × List PollEvent) :=
  readxPollTimeout ⟨regReads, times⟩ cond sleep_us timeout_us fuel

/-- `ExynosTrngDevice::init` (exynos_trng_rust.rs lines 72-97) as a function of
the clock rate returned by `clk.get_rate()` and of whether `resources()` is
populated on the instance.  Returns the typed result together with the trace
of register writes performed. -/
def ExynosTrngDevice.init (sssRate : Nat) (resourcesPresent : Bool) :
    Except KError Unit × List MmioEvent :=
  let val := sssRate / (EXYNOS_TRNG_CLOCK_RATE * 2)
  if 0x7fff < val then
    (.error .ERANGE, [])
  else if resourcesPresent = false then
    (.error .ENXIO_, [])
  else
    match tryIntoU32 (val <<< 1) with
    | .error e => (.error e, [])
    | .ok v1 =>
      match tryIntoU32 EXYNOS_TRNG_CTRL_RNGEN with
      | .error e => (.error e, [.write EXYNOS_TRNG_CLKDIV v1])
      | .ok v2 =>
        (.ok (), [.write EXYNOS_TRNG_CLKDIV v1,
                  .write EXYNOS_TRNG_CTRL v2,
                  .write EXYNOS_TRNG_POST_CTRL 0])

/-- `ExynosTrngDevice::read` (exynos_trng_rust.rs lines 99-113) as a function of
the hardware oracle, the time oracle, the poll fuel, the caller's buffer
(list of bytes) and resource presence.  `none` means the poll loop was still
running when the fuel ran out; otherwise the result carries the typed return
value, the final contents of the caller's buffer and the MMIO event trace. -/
def ExynosTrngDevice.read (hw : TrngHw) (times : Nat → Nat) (fuel : Nat)
    (data : List Nat) (resourcesPresent : Bool) (_wait : Bool) :
    Option (Except KError Nat × List Nat × List MmioEvent) :=
  if resourcesPresent = false then
    some (.error .ENXIO_, data, [])
  else
    match tryIntoU32 data.length with
    | .error e => some (.error e, data, [])
    | .ok len =>
      let max := min len (EXYNOS_TRNG_FIFO_LEN * 4)
      let wr : MmioEvent := .write EXYNOS_TRNG_FIFO_CTRL (max * 8)
      match readlPollTimeout hw.fifoCtrl times (fun val => val == 0) 200 1000000 fuel with
      | none => none
      | some (.error e, pollTr) =>
        some (.error e, data, [wr, .poll EXYNOS_TRNG_FIFO_CTRL 200 1000000 pollTr])
      | some (.ok _, pollTr) =>
        match tryMemcpyFromio EXYNOS_REG_SIZE hw data max EXYNOS_TRNG_FIFO_0 with
        | .error e =>
          some (.error e, data, [wr, .poll EXYNOS_TRNG_FIFO_CTRL 200 1000000 pollTr])
        | .ok data₂ =>
          some (.ok max, data₂, [wr, .poll EXYNOS_TRNG_FIFO_CTRL 200 1000000 pollTr,
                                 .copy EXYNOS_TRNG_FIFO_0 max])

/-! ## The hwrng registration layer (`hw_random.rs`) -/

/-- `ToUse` (hw_random.rs): which optional callbacks of `struct hwrng` a driver
type declares. -/
structure ToUse where
  init : Bool
  cleanup : Bool
  deriving DecidableEq, Repr

/-- `USE_NONE`: all optional fields left out. -/
def USE_NONE : ToUse := { init := false, cleanup := false }

/-- `declare_hwrng_operations!($($i),+)` expands to
`ToUse { $($i: true),+, ..USE_NONE }`; the concrete driver writes
`declare_hwrng_operations!(init)` (exynos_trng_rust.rs line 68). -/
def ExynosTrngDevice.TO_USE : ToUse := { USE_NONE with init := true }

/-- The identity of the trampoline a populated `struct hwrng` function-pointer
field carries. -/
inductive HwrngCallback where
  | initCb
  | cleanupCb
  | readCb
  deriving DecidableEq, Repr

/-- The externally visible fields of `bindings::hwrng` that
`Registration::init_hwrng` fills in: function-pointer entries are `Option`s
(`None` models a null pointer), `priv_` the opaque data pointer. -/
structure HwrngTable (Data : Type) where
  name : String
  init : Option HwrngCallback
  cleanup : Option HwrngCallback
  data_present : Option HwrngCallback
  data_read : Option HwrngCallback
  read : Option HwrngCallback
  priv_ : Data
  quality : Nat

/-- `Registration::init_hwrng` (hw_random.rs): populates the callback table
from `T::TO_USE` — `init`/`cleanup` are set iff declared, `data_present` and
`data_read` are always null, `read` is always set. -/
def initHwrng {Data : Type} (toUse : ToUse) (name : String) (quality : Nat)
    (data : Data) : HwrngTable Data :=
  { name := name
    init := if toUse.init then some .initCb else none
    cleanup := if toUse.cleanup then some .cleanupCb else none
    data_present := none
    data_read := none
    read := some .readCb
    priv_ := data
    quality := quality }

/-- The opaque handle a trampoline receives: the registry hands back the
`struct hwrng` whose `priv_` field holds the data pointer installed at
registration; `T::Data::borrow` recovers the typed instance from it. -/
structure HwrngHandle (Data : Type) where
  priv_ : Data

/-- `from_kernel_result!`: maps a typed `Result` onto the C convention — the
`Ok` payload unchanged, an `Err` as its negative errno. -/
def fromKernelResult (r : Except KError Int) : Int :=
  match r with
  | .ok v => v
  | .error e => e.toErrno

/-- `init_callback` (hw_random.rs): borrows the instance from the handle's
`priv_` pointer, runs the typed `init`, and returns 0 on success or the
negative errno on failure. -/
def init_callback {Data : Type} (doInit : Data → Except KError Unit)
    (rng : HwrngHandle Data) : Int :=
  fromKernelResult ((doInit rng.priv_).map (fun _ => (0 : Int)))

/-- `read_callback` (hw_random.rs): borrows the instance from the handle's
`priv_` pointer, builds the byte buffer from the raw pointer and length, runs
the typed `read`, and returns the count on success or the negative errno on
failure (paired here with the buffer as left by the typed call). -/
def read_callback {Data : Type}
    (doRead : Data → List Nat → Bool → Except KError Nat × List Nat)
    (rng : HwrngHandle Data) (buffer : List Nat) (wait : Bool) : Int × List Nat :=
  match doRead rng.priv_ buffer wait with
  | (.ok n, buf) => ((n : Int), buf)
  | (.error e, buf) => (e.toErrno, buf)

/-! ## Helper lemmas about the polling loop -/

/-- With a timeout budget of 0 the loop can never produce an error: the timeout
branch is guarded by `timeout_us != 0`. -/
theorem pollLoopAux_ne_error_of_zero {α : Type} (env : PollEnv α) (cond : α → Bool)
    (s d : Nat) : ∀ (fuel n : Nat) (tr trE : List PollEvent) (e : KError),
    pollLoopAux env cond s 0 d fuel n tr ≠ some (.error e, trE) := by
  intro fuel
  induction fuel with
  | zero => intro n tr trE e h; simp [pollLoopAux] at h
  | succ fuel ih =>
    intro n tr trE e h
    simp only [pollLoopAux, ne_eq, not_true_eq_false, false_and, if_false] at h
    split at h
    · simp at h
    · exact ih _ _ _ _ h

/-- With a timeout budget of 0 and a predicate that never holds, the loop is
still running whatever the fuel. -/
theorem pollLoopAux_none_of_never {α : Type} (env : PollEnv α) (cond : α → Bool)
    (s d : Nat) (hc : ∀ m, cond (env.op m) = false) :
    ∀ (fuel n : Nat) (tr : List PollEvent),
    pollLoopAux env cond s 0 d fuel n tr = none := by
  intro fuel
  induction fuel with
  | zero => intro n tr; simp [pollLoopAux]
  | succ fuel ih =>
    intro n tr
    simp only [pollLoopAux, hc, ne_eq, not_true_eq_false, false_and, if_false]
    exact ih _ _

/-- With a timeout budget of 0 the loop reaches the first read on which the
predicate holds, given fuel for that many iterations, and returns its value. -/
theorem pollLoopAux_zero_succeeds {α : Type} (env : PollEnv α) (cond : α → Bool)
    (s d k : Nat) (hk : cond (env.op k) = true)
    (hbefore : ∀ m, m < k → cond (env.op m) = false) :
    ∀ (fuel n : Nat) (tr : List PollEvent), n ≤ k → k - n + 1 ≤ fuel →
    ∃ trR, pollLoopAux env cond s 0 d fuel n tr = some (.ok (env.op k), trR) := by
  intro fuel
  induction fuel with
  | zero => intro n tr _ hf; exact absurd hf (by omega)
  | succ fuel ih =>
    intro n tr hn hf
    by_cases hnk : n = k
    · subst hnk
      exact ⟨tr ++ [.read n], by simp [pollLoopAux, hk]⟩
    · have hlt : n < k := by omega
      have hc : cond (env.op n) = false := hbefore n hlt
      have hstep : pollLoopAux env cond s 0 d (fuel + 1) n tr
          = pollLoopAux env cond s 0 d fuel (n + 1)
            (if s ≠ 0 then (tr ++ [.read n]) ++ [.sleep ((s >>> 2) + 1) s]
             else tr ++ [.read n]) := by
        simp [pollLoopAux, hc]
      rw [hstep]
      exact ih (n + 1) _ (by omega) (by omega)

/-- The only error the loop ever produces is `ETIMEDOUT`. -/
theorem pollLoopAux_error_eq_timeout {α : Type} (env : PollEnv α) (cond : α → Bool)
    (s T d : Nat) : ∀ (fuel n : Nat) (tr trE : List PollEvent) (e : KError),
    pollLoopAux env cond s T d fuel n tr = some (.error e, trE) → e = .ETIMEDOUT := by
  intro fuel
  induction fuel with
  | zero => intro n tr trE e h; simp [pollLoopAux] at h
  | succ fuel ih =>
    intro n tr trE e h
    simp only [pollLoopAux] at h
    split at h
    · simp at h
    · split at h
      · split at h
        · simp at h
        · simp only [Option.some.injEq, Prod.mk.injEq, Except.ok.injEq, Except.error.injEq] at h
          cases h.1
          rfl
      · exact ih _ _ _ _ h

/-- Every sleep event the loop appends has the `usleep_range((s >> 2) + 1, s)`
shape. -/
theorem pollLoopAux_sleep_shape {α : Type} (env : PollEnv α) (cond : α → Bool)
    (s T d : Nat) : ∀ (fuel n : Nat) (tr trR : List PollEvent)
    (r : Except KError α),
    (∀ lo hi, PollEvent.sleep lo hi ∈ tr → lo = (s >>> 2) + 1 ∧ hi = s) →
    pollLoopAux env cond s T d fuel n tr = some (r, trR) →
    ∀ lo hi, PollEvent.sleep lo hi ∈ trR → lo = (s >>> 2) + 1 ∧ hi = s := by
  intro fuel
  induction fuel with
  | zero => intro n tr trR r _ h; simp [pollLoopAux] at h
  | succ fuel ih =>
    intro n tr trR r htr h
    have htr' : ∀ lo hi, PollEvent.sleep lo hi ∈ tr ++ [PollEvent.read n] →
        lo = (s >>> 2) + 1 ∧ hi = s := by
      intro lo hi hmem
      rcases List.mem_append.mp hmem with hmem | hmem
      · exact htr _ _ hmem
      · simp at hmem
    simp only [pollLoopAux] at h
    split at h
    · rcases (Option.some.injEq _ _).mp h with h'
      cases h'
      intro lo hi hmem
      exact htr' _ _ hmem
    · split at h
      · have htr'' : ∀ lo hi,
            PollEvent.sleep lo hi ∈ tr ++ [PollEvent.read n] ++ [PollEvent.read (n + 1)] →
            lo = (s >>> 2) + 1 ∧ hi = s := by
          intro lo hi hmem
          rcases List.mem_append.mp hmem with hmem | hmem
          · exact htr' _ _ hmem
          · simp at hmem
        split at h
        all_goals {
          rcases (Option.some.injEq _ _).mp h with h'
          cases h'
          intro lo hi hmem
          exact htr'' _ _ hmem }
      · refine ih _ _ _ _ ?_ h
        intro lo hi hmem
        split at hmem
        · rcases List.mem_append.mp hmem with hmem | hmem
          · exact htr' _ _ hmem
          · simp at hmem
            exact hmem
        · exact htr' _ _ hmem

/-- With a sleep interval of 0 the loop busy-spins: it appends no sleep event
at all. -/
theorem pollLoopAux_no_sleep {α : Type} (env : PollEnv α) (cond : α → Bool)
    (T d : Nat) : ∀ (fuel n : Nat) (tr trR : List PollEvent)
    (r : Except KError α),
    (∀ lo hi, PollEvent.sleep lo hi ∉ tr) →
    pollLoopAux env cond 0 T d fuel n tr = some (r, trR) →
    ∀ lo hi, PollEvent.sleep lo hi ∉ trR := by
  intro fuel
  induction fuel with
  | zero => intro n tr trR r _ h; simp [pollLoopAux] at h
  | succ fuel ih =>
    intro n tr trR r htr h
    have htr' : ∀ lo hi, PollEvent.sleep lo hi ∉ tr ++ [PollEvent.read n] := by
      intro lo hi hmem
      rcases List.mem_append.mp hmem with hmem | hmem
      · exact htr _ _ hmem
      · simp at hmem
    simp only [pollLoopAux, ne_eq, not_true_eq_false, if_false] at h
    split at h
    · rcases (Option.some.injEq _ _).mp h with h'
      cases h'
      intro lo hi
      exact htr' _ _
    · split at h
      · have htr'' : ∀ lo hi,
            PollEvent.sleep lo hi ∉ tr ++ [PollEvent.read n] ++ [PollEvent.read (n + 1)] := by
          intro lo hi hmem
          rcases List.mem_append.mp hmem with hmem | hmem
          · exact htr' _ _ hmem
          · simp at hmem
        split at h
        all_goals {
          rcases (Option.some.injEq _ _).mp h with h'
          cases h'
          intro lo hi
          exact htr'' _ _ }
      · exact ih _ _ _ _ htr' h

/-- Exact success/timeout boundary of the loop under the exact-interval time
model, for a predicate that is false on reads `0..k-1` and true from read `k`
on (modelled as `op = id`, `cond v = (k ≤ v)`).  Starting at read index `n`
with no timeout triggered so far, the loop succeeds with value `k` iff
`k ≤ T / i + 2` — i.e. the code grants up to two reads beyond the budget: the
read whose timeout check first fails, plus the final last-chance read. -/
theorem pollLoopAux_char (k i T t0 : Nat) (hi : 0 < i) (hT : 0 < T) :
    ∀ (fuel n : Nat) (tr : List PollEvent), n ≤ k → k - n + 1 ≤ fuel →
    (∀ j, j < n → j * i ≤ T) →
    (pollLoopAux ⟨fun m => m, exactTimes t0 i⟩ (fun v => decide (k ≤ v)) i T (t0 + T)
        fuel n tr).map Prod.fst
      = some (if k ≤ T / i + 2 then Except.ok k else Except.error KError.ETIMEDOUT) := by
  intro fuel
  induction fuel with
  | zero => intro n tr _ hfuel _; exact absurd hfuel (by omega)
  | succ fuel ih =>
    intro n tr hn hfuel hinv
    by_cases hnk : k ≤ n
    · have hnk' : n = k := le_antisymm hn hnk
      subst hnk'
      have hkdiv : n ≤ T / i + 2 := by
        rcases Nat.eq_zero_or_pos n with hk0 | hk0
        · subst hk0; exact Nat.zero_le _
        · have h1 : (n - 1) * i ≤ T := hinv (n - 1) (by omega)
          have h2 : n - 1 ≤ T / i := (Nat.le_div_iff_mul_le hi).mpr h1
          generalize T / i = q at h2 ⊢
          omega
      simp [pollLoopAux, hkdiv]
    · have hlt : n < k := Nat.not_le.mp hnk
      have hcond : (decide (k ≤ n)) = false := by simp [hnk]
      have hts : exactTimes t0 i (n + 1) = t0 + n * i := by
        simp [exactTimes]
      by_cases htime : T < n * i
      · have hn1 : 1 ≤ n := by
          rcases Nat.eq_zero_or_pos n with h0 | h0
          · subst h0; simp at htime
          · exact h0
        have htime' : t0 + T < exactTimes t0 i (n + 1) := by
          rw [hts]; exact Nat.add_lt_add_left htime t0
        by_cases hk1 : k ≤ n + 1
        · have hkeq : k = n + 1 := by omega
          have hkdiv : k ≤ T / i + 2 := by
            have h1 : (n - 1) * i ≤ T := hinv (n - 1) (by omega)
            have h2 : n - 1 ≤ T / i := (Nat.le_div_iff_mul_le hi).mpr h1
            generalize T / i = q at h2 ⊢
            omega
          have hstep : pollLoopAux ⟨fun m => m, exactTimes t0 i⟩ (fun v => decide (k ≤ v))
              i T (t0 + T) (fuel + 1) n tr
              = some (.ok (n + 1), (tr ++ [.read n]) ++ [.read (n + 1)]) := by
            simp [pollLoopAux, hcond, htime', hT.ne', hk1]
          rw [hstep, if_pos hkdiv]
          simp [hkeq]
        · have hdivlt : ¬ n ≤ T / i := fun hle =>
            absurd ((Nat.le_div_iff_mul_le hi).mp hle) (Nat.not_le.mpr htime)
          have hkdiv : ¬ k ≤ T / i + 2 := by
            generalize T / i = q at hdivlt ⊢
            omega
          have hstep : pollLoopAux ⟨fun m => m, exactTimes t0 i⟩ (fun v => decide (k ≤ v))
              i T (t0 + T) (fuel + 1) n tr
              = some (.error .ETIMEDOUT, (tr ++ [.read n]) ++ [.read (n + 1)]) := by
            simp [pollLoopAux, hcond, htime', hT.ne', hk1]
          rw [hstep, if_neg hkdiv]
          simp
      · have htime' : ¬ t0 + T < exactTimes t0 i (n + 1) := by
          rw [hts]
          exact fun hcontra => htime (Nat.lt_of_add_lt_add_left hcontra)
        have hstep : pollLoopAux ⟨fun m => m, exactTimes t0 i⟩ (fun v => decide (k ≤ v))
            i T (t0 + T) (fuel + 1) n tr
            = pollLoopAux ⟨fun m => m, exactTimes t0 i⟩ (fun v => decide (k ≤ v))
              i T (t0 + T) fuel (n + 1)
              (if i ≠ 0 then (tr ++ [.read n]) ++ [.sleep ((i >>> 2) + 1) i]
               else tr ++ [.read n]) := by
          simp [pollLoopAux, hcond, htime']
        rw [hstep]
        exact ih (n + 1) _ (by omega) (by omega) (fun j hj => by
          rcases Nat.lt_succ_iff_lt_or_eq.mp hj with h | h
          · exact hinv j h
          · subst h; exact Nat.not_lt.mp htime)

/-- Full characterization of `ExynosTrngDevice::read` on an instance with
resources, for a buffer whose length fits `u32`: it writes `max * 8` to the
FIFO-control register, polls that register with sleep 200 and budget 1 000 000
until it reads 0, and on success copies `max` device bytes from the FIFO
window over the head of the buffer and returns `max`. -/
theorem read_protocol (hw : TrngHw) (times : Nat → Nat) (fuel : Nat)
    (data : List Nat) (w : Bool) (hlen : data.length < 2 ^ 32) :
    ExynosTrngDevice.read hw times fuel data true w =
      match readlPollTimeout hw.fifoCtrl times (fun v => v == 0) 200 1000000 fuel with
      | none => none
      | some (.error e, ptr) =>
        some (.error e, data,
          [.write EXYNOS_TRNG_FIFO_CTRL (min data.length 32 * 8),
           .poll EXYNOS_TRNG_FIFO_CTRL 200 1000000 ptr])
      | some (.ok _, ptr) =>
        some (.ok (min data.length 32),
          (List.range (min data.length 32)).map
              (fun i => hw.mem (EXYNOS_TRNG_FIFO_0 + i))
            ++ data.drop (min data.length 32),
          [.write EXYNOS_TRNG_FIFO_CTRL (min data.length 32 * 8),
           .poll EXYNOS_TRNG_FIFO_CTRL 200 1000000 ptr,
           .copy EXYNOS_TRNG_FIFO_0 (min data.length 32)]) := by
  have h32 : EXYNOS_TRNG_FIFO_LEN * 4 = 32 := by norm_num [EXYNOS_TRNG_FIFO_LEN]
  have hcopy : EXYNOS_TRNG_FIFO_0 + min data.length 32 ≤ EXYNOS_REG_SIZE := by
    have : min data.length 32 ≤ 32 := Nat.min_le_right _ _
    norm_num [EXYNOS_TRNG_FIFO_0, EXYNOS_REG_SIZE]
    omega
  unfold ExynosTrngDevice.read
  rw [if_neg (by simp)]
  rw [show tryIntoU32 data.length = .ok data.length from if_pos hlen]
  cases hpoll : readlPollTimeout hw.fifoCtrl times (fun v => v == 0) 200 1000000 fuel with
  | none => simp [hpoll, h32]
  | some res =>
    rcases res with ⟨r, ptr⟩
    cases r with
    | error e => simp [hpoll, h32]
    | ok v =>
      simp only [hpoll, h32]
      rw [show tryMemcpyFromio EXYNOS_REG_SIZE hw data (min data.length 32)
            EXYNOS_TRNG_FIFO_0
          = .ok ((List.range (min data.length 32)).map
                (fun i => hw.mem (EXYNOS_TRNG_FIFO_0 + i))
              ++ data.drop (min data.length 32)) from if_pos hcopy]

/-- The failure cases of `ExynosTrngDevice::read` outside the main protocol:
absent resources yield `ENXIO_`, an over-length buffer yields `EINVAL`, both
with no MMIO event and the buffer untouched. -/
theorem read_failure_shapes (hw : TrngHw) (times : Nat → Nat) (fuel : Nat)
    (data : List Nat) (w : Bool) :
    ExynosTrngDevice.read hw times fuel data false w
      = some (.error .ENXIO_, data, [])
    ∧ (2 ^ 32 ≤ data.length →
        ExynosTrngDevice.read hw times fuel data true w
          = some (.error .EINVAL, data, [])) := by
  constructor
  · simp [ExynosTrngDevice.read]
  · intro hlen
    unfold ExynosTrngDevice.read
    rw [if_neg (by simp)]
    rw [show tryIntoU32 data.length = .error .EINVAL from if_neg (by omega)]

/-! ## Claim theorems -/

/-- C1: for every buffer of length L ≥ 1 (L within the u32 conversion the code
performs on it), read first writes max×8 to the FIFO-control register 0x50
with max = min(L, 32), then polls that same register with a 200-unit sleep
interval and a 1 000 000-unit budget until the polled value equals 0; on
timeout it fails with Timeout (the only possible poll error), and on success
it bulk-copies max bytes starting at the FIFO data window 0x80 into the
caller's buffer and returns max. -/
theorem c1_read_sequence (hw : TrngHw) (times : Nat → Nat) (fuel : Nat)
    (data : List Nat) (w : Bool)
    (_h1 : 1 ≤ data.length) (hlen : data.length < 2 ^ 32) :
    (ExynosTrngDevice.read hw times fuel data true w =
      match readlPollTimeout hw.fifoCtrl times (fun v => v == 0) 200 1000000 fuel with
      | none => none
      | some (.error e, ptr) =>
        some (.error e, data,
          [.write 0x50 (min data.length 32 * 8), .poll 0x50 200 1000000 ptr])
      | some (.ok _, ptr) =>
        some (.ok (min data.length 32),
          (List.range (min data.length 32)).map (fun i => hw.mem (0x80 + i))
            ++ data.drop (min data.length 32),
          [.write 0x50 (min data.length 32 * 8), .poll 0x50 200 1000000 ptr,
           .copy 0x80 (min data.length 32)]))
    ∧ (∀ e ptr,
        readlPollTimeout hw.fifoCtrl times (fun v => v == 0) 200 1000000 fuel
          = some (.error e, ptr) → e = .ETIMEDOUT) := by
  constructor
  · exact read_protocol hw times fuel data w hlen
  · intro e ptr h
    exact pollLoopAux_error_eq_timeout ⟨hw.fifoCtrl, times⟩ (fun v => v == 0)
      200 1000000 _ fuel 0 _ ptr e h

/-- C1 witness: a 5-byte buffer against hardware that clears the FIFO-control
register on the third poll — the protocol trace and the copied bytes are
exactly as characterized. -/
theorem c1_read_sequence_witness :
    1 ≤ ([9, 9, 9, 9, 9] : List Nat).length
    ∧ ([9, 9, 9, 9, 9] : List Nat).length < 2 ^ 32
    ∧ ((ExynosTrngDevice.read ⟨fun n => if n < 2 then 64 else 0, fun i => i⟩
          (exactTimes 0 200) 50 [9, 9, 9, 9, 9] true false =
        match readlPollTimeout (fun n => if n < 2 then 64 else 0) (exactTimes 0 200)
            (fun v => v == 0) 200 1000000 50 with
        | none => none
        | some (.error e, ptr) =>
          some (.error e, [9, 9, 9, 9, 9],
            [.write 0x50 (min ([9, 9, 9, 9, 9] : List Nat).length 32 * 8),
             .poll 0x50 200 1000000 ptr])
        | some (.ok _, ptr) =>
          some (.ok (min ([9, 9, 9, 9, 9] : List Nat).length 32),
            (List.range (min ([9, 9, 9, 9, 9] : List Nat).length 32)).map
                (fun i => (⟨fun n => if n < 2 then 64 else 0, fun i => i⟩ : TrngHw).mem (0x80 + i))
              ++ ([9, 9, 9, 9, 9] : List Nat).drop (min ([9, 9, 9, 9, 9] : List Nat).length 32),
            [.write 0x50 (min ([9, 9, 9, 9, 9] : List Nat).length 32 * 8),
             .poll 0x50 200 1000000 ptr,
             .copy 0x80 (min ([9, 9, 9, 9, 9] : List Nat).length 32)]))
      ∧ (∀ e ptr,
          readlPollTimeout (fun n => if n < 2 then 64 else 0) (exactTimes 0 200)
              (fun v => v == 0) 200 1000000 50
            = some (.error e, ptr) → e = .ETIMEDOUT)) :=
  ⟨by decide, by decide,
   c1_read_sequence ⟨fun n => if n < 2 then 64 else 0, fun i => i⟩
     (exactTimes 0 200) 50 [9, 9, 9, 9, 9] false (by decide) (by decide)⟩

/-- C2: whenever read succeeds it returns exactly min(L, 32) for a buffer of
length L; in particular a zero-length buffer that succeeds returns 0. -/
theorem c2_read_count (hw : TrngHw) (times : Nat → Nat) (fuel : Nat)
    (data : List Nat) (rp w : Bool) (n : Nat) (buf : List Nat)
    (tr : List MmioEvent)
    (h : ExynosTrngDevice.read hw times fuel data rp w = some (.ok n, buf, tr)) :
    n = min data.length 32 ∧ (data.length = 0 → n = 0) := by
  have hmain : n = min data.length 32 := by
    cases rp with
    | false =>
      rw [(read_failure_shapes hw times fuel data w).1] at h
      simp at h
    | true =>
      by_cases hlen : data.length < 2 ^ 32
      · rw [read_protocol hw times fuel data w hlen] at h
        cases hpoll : readlPollTimeout hw.fifoCtrl times (fun v => v == 0)
            200 1000000 fuel with
        | none => rw [hpoll] at h; simp at h
        | some res =>
          rcases res with ⟨r, ptr⟩
          cases r with
          | error e => rw [hpoll] at h; simp at h
          | ok v =>
            rw [hpoll] at h
            simp only [Option.some.injEq, Prod.mk.injEq, Except.ok.injEq, Except.error.injEq] at h
            exact h.1.symm
      · rw [(read_failure_shapes hw times fuel data w).2 (by omega)] at h
        simp at h
  exact ⟨hmain, fun h0 => by simp [hmain, h0]⟩

/-- C2 witness: a successful concrete read of a 5-byte buffer returns
min(5, 32) = 5, clamped by the claim's formula. -/
theorem c2_read_count_witness :
    ExynosTrngDevice.read ⟨fun n => if n < 2 then 64 else 0, fun i => i⟩
        (exactTimes 0 200) 50 [9, 9, 9, 9, 9] true false
      = some (.ok 5, [128, 129, 130, 131, 132],
          [.write 0x50 40,
           .poll 0x50 200 1000000
             [.read 0, .sleep 51 200, .read 1, .sleep 51 200, .read 2],
           .copy 0x80 5])
    ∧ (5 = min ([9, 9, 9, 9, 9] : List Nat).length 32
        ∧ (([9, 9, 9, 9, 9] : List Nat).length = 0 → 5 = 0)) :=
  ⟨rfl,
   c2_read_count ⟨fun n => if n < 2 then 64 else 0, fun i => i⟩
     (exactTimes 0 200) 50 [9, 9, 9, 9, 9] true false 5
     [128, 129, 130, 131, 132]
     [.write 0x50 40,
      .poll 0x50 200 1000000
        [.read 0, .sleep 51 200, .read 1, .sleep 51 200, .read 2],
      .copy 0x80 5] rfl⟩

/-- C10: when read fails — resources absent, over-length buffer, or poll
timeout — the caller's buffer is left completely unchanged, and when it
succeeds only the first min(L, 32) bytes are modified: the buffer keeps its
length and the bytes from index min(L, 32) on are unchanged. -/
theorem c10_read_frame (hw : TrngHw) (times : Nat → Nat) (fuel : Nat)
    (data : List Nat) (rp w : Bool) :
    (∀ e buf tr,
        ExynosTrngDevice.read hw times fuel data rp w
          = some (.error e, buf, tr) → buf = data)
    ∧ (∀ n buf tr,
        ExynosTrngDevice.read hw times fuel data rp w
          = some (.ok n, buf, tr) →
        buf.length = data.length
        ∧ buf.drop (min data.length 32) = data.drop (min data.length 32)) := by
  constructor
  · intro e buf tr h
    cases rp with
    | false =>
      rw [(read_failure_shapes hw times fuel data w).1] at h
      simp at h
      exact h.2.1.symm
    | true =>
      by_cases hlen : data.length < 2 ^ 32
      · rw [read_protocol hw times fuel data w hlen] at h
        cases hpoll : readlPollTimeout hw.fifoCtrl times (fun v => v == 0)
            200 1000000 fuel with
        | none => rw [hpoll] at h; simp at h
        | some res =>
          rcases res with ⟨r, ptr⟩
          cases r with
          | error e' =>
            rw [hpoll] at h
            simp only [Option.some.injEq, Prod.mk.injEq, Except.ok.injEq, Except.error.injEq] at h
            exact h.2.1.symm
          | ok v => rw [hpoll] at h; simp at h
      · rw [(read_failure_shapes hw times fuel data w).2 (by omega)] at h
        simp at h
        exact h.2.1.symm
  · intro n buf tr h
    cases rp with
    | false =>
      rw [(read_failure_shapes hw times fuel data w).1] at h
      simp at h
    | true =>
      by_cases hlen : data.length < 2 ^ 32
      · rw [read_protocol hw times fuel data w hlen] at h
        cases hpoll : readlPollTimeout hw.fifoCtrl times (fun v => v == 0)
            200 1000000 fuel with
        | none => rw [hpoll] at h; simp at h
        | some res =>
          rcases res with ⟨r, ptr⟩
          cases r with
          | error e' => rw [hpoll] at h; simp at h
          | ok v =>
            rw [hpoll] at h
            simp only [Option.some.injEq, Prod.mk.injEq, Except.ok.injEq, Except.error.injEq] at h
            have hbuf : buf = (List.range (min data.length 32)).map
                  (fun i => hw.mem (EXYNOS_TRNG_FIFO_0 + i))
                ++ data.drop (min data.length 32) := h.2.1.symm
            have hminle : min data.length 32 ≤ data.length := Nat.min_le_left _ _
            constructor
            · rw [hbuf]
              simp only [List.length_append, List.length_map, List.length_range,
                List.length_drop]
              omega
            · rw [hbuf]
              refine List.drop_left' ?_
              simp
      · rw [(read_failure_shapes hw times fuel data w).2 (by omega)] at h
        simp at h

/-- C10 witness: a failing (timed-out) read leaves a concrete buffer
unchanged, and a successful read leaves the tail beyond min(L, 32) unchanged
with length preserved. -/
theorem c10_read_frame_witness :
    ([9, 9, 9] : List Nat) = [9, 9, 9]
    ∧ (([128, 129, 130, 131, 132] : List Nat).length
        = ([9, 9, 9, 9, 9] : List Nat).length
      ∧ ([128, 129, 130, 131, 132] : List Nat).drop
            (min ([9, 9, 9, 9, 9] : List Nat).length 32)
        = ([9, 9, 9, 9, 9] : List Nat).drop
            (min ([9, 9, 9, 9, 9] : List Nat).length 32)) :=
  ⟨(c10_read_frame ⟨fun _ => 64, fun i => i⟩ (exactTimes 0 200) 5
      [9, 9, 9] false false).1 .ENXIO_ [9, 9, 9] [] rfl,
   (c10_read_frame ⟨fun n => if n < 2 then 64 else 0, fun i => i⟩
      (exactTimes 0 200) 50 [9, 9, 9, 9, 9] true false).2
      5 [128, 129, 130, 131, 132]
      [.write 0x50 40,
       .poll 0x50 200 1000000
         [.read 0, .sleep 51 200, .read 1, .sleep 51 200, .read 2],
       .copy 0x80 5]
      rfl⟩

/-- C3: for every clock rate R whose divider R / (2 × 500 000) is at most
0x7FFF, `ExynosTrngDevice::init` succeeds and performs exactly these register
writes in order — (divider << 1) to the clock-divider register 0x00, a value
with only bit 31 set to the control register 0x20, and 0 to the
post-processing register 0x30; for R = 1 000 000 000 the divider is 1000 and
the clock-divider write is 2000. -/
theorem c3_init_success_writes (R : Nat) (h : R / (2 * 500000) ≤ 0x7fff) :
    ExynosTrngDevice.init R true =
      (.ok (), [.write 0x00 ((R / (2 * 500000)) <<< 1),
                .write 0x20 (1 <<< 31),
                .write 0x30 0])
    ∧ (R = 1000000000 →
        R / (2 * 500000) = 1000 ∧ (R / (2 * 500000)) <<< 1 = 2000) := by
  constructor
  · have hnot : ¬ 32767 < R / 1000000 := by omega
    have hfit : (R / 1000000) <<< 1 < 4294967296 := by
      rw [Nat.shiftLeft_eq]
      norm_num
      omega
    have hfit2 : (1 : Nat) <<< 31 < 4294967296 := by decide
    simp only [ExynosTrngDevice.init, EXYNOS_TRNG_CLOCK_RATE,
      EXYNOS_TRNG_CLKDIV, EXYNOS_TRNG_CTRL, EXYNOS_TRNG_CTRL_RNGEN,
      EXYNOS_TRNG_POST_CTRL, tryIntoU32]
    norm_num [hnot, hfit, hfit2]
  · intro hR
    subst hR
    norm_num
    decide

/-- C3 witness: at rate R = 1 000 000 000 the divider is 1000 and init writes
2000, bit 31, 0 to the three registers. -/
theorem c3_init_success_writes_witness :
    1000000000 / (2 * 500000) ≤ 0x7fff
    ∧ (ExynosTrngDevice.init 1000000000 true =
        (.ok (), [.write 0x00 ((1000000000 / (2 * 500000)) <<< 1),
                  .write 0x20 (1 <<< 31),
                  .write 0x30 0])
      ∧ (1000000000 = 1000000000 →
          1000000000 / (2 * 500000) = 1000
          ∧ (1000000000 / (2 * 500000)) <<< 1 = 2000)) :=
  ⟨by decide, c3_init_success_writes 1000000000 (by decide)⟩

/-- C4: for every clock rate R whose divider exceeds 0x7FFF,
`ExynosTrngDevice::init` fails with `ERANGE` and performs no register write at
all (the returned trace is empty, so in particular the control register is
never written), whether or not the instance's resources are populated. -/
theorem c4_init_range_failure (R : Nat) (rp : Bool)
    (h : 0x7fff < R / (2 * 500000)) :
    ExynosTrngDevice.init R rp = (.error .ERANGE, []) := by
  have h' : 0x7fff < R / (EXYNOS_TRNG_CLOCK_RATE * 2) := by
    have : EXYNOS_TRNG_CLOCK_RATE * 2 = 2 * 500000 := by
      norm_num [EXYNOS_TRNG_CLOCK_RATE]
    rw [this]; exact h
  simp [ExynosTrngDevice.init, h']

/-- C4 witness: at rate R = 2^45 the divider 35184372 exceeds 0x7FFF, and init
fails with ERANGE having performed no write. -/
theorem c4_init_range_failure_witness :
    0x7fff < 2 ^ 45 / (2 * 500000)
    ∧ ExynosTrngDevice.init (2 ^ 45) true = (.error .ERANGE, []) :=
  ⟨by decide, c4_init_range_failure (2 ^ 45) true (by decide)⟩

/-- C7: the callback table built at registration has a non-null entry for an
optional capability iff the driver's `TO_USE` declares it, `data_present` and
`data_read` are always null, and `read` is always populated; the concrete
driver declares only `init`, so its table has `init` and `read` present and
`cleanup` absent. -/
theorem c7_capability_table :
    (∀ (Data : Type) (toUse : ToUse) (name : String) (q : Nat) (d : Data),
        ((initHwrng toUse name q d).init.isSome = toUse.init)
        ∧ ((initHwrng toUse name q d).cleanup.isSome = toUse.cleanup)
        ∧ (initHwrng toUse name q d).read = some .readCb
        ∧ (initHwrng toUse name q d).data_present = none
        ∧ (initHwrng toUse name q d).data_read = none)
    ∧ ExynosTrngDevice.TO_USE = { init := true, cleanup := false }
    ∧ (∀ (Data : Type) (name : String) (q : Nat) (d : Data),
        (initHwrng ExynosTrngDevice.TO_USE name q d).init = some .initCb
        ∧ (initHwrng ExynosTrngDevice.TO_USE name q d).cleanup = none
        ∧ (initHwrng ExynosTrngDevice.TO_USE name q d).read = some .readCb) := by
  refine ⟨?_, rfl, ?_⟩
  · intro Data toUse name q d
    rcases toUse with ⟨i, c⟩
    cases i <;> cases c <;> simp [initHwrng]
  · intro Data name q d
    simp [initHwrng, ExynosTrngDevice.TO_USE, USE_NONE]

/-- C8: each dispatch trampoline recovers the instance from the handle's
opaque `priv_` field, invokes the typed contract method on it, and translates
the typed result to the registry convention: `init_callback` returns 0 on
success and the (strictly negative) errno on failure, `read_callback` returns
the non-negative byte count on success and the negative errno on failure — no
typed error value crosses the boundary unconverted. -/
theorem c8_trampoline_convention (Data : Type) (rng : HwrngHandle Data) :
    (∀ doInit : Data → Except KError Unit,
        (doInit rng.priv_ = .ok () → init_callback doInit rng = 0)
        ∧ (∀ e, doInit rng.priv_ = .error e →
            init_callback doInit rng = e.toErrno ∧ init_callback doInit rng < 0))
    ∧ (∀ (doRead : Data → List Nat → Bool → Except KError Nat × List Nat)
          (buffer : List Nat) (wait : Bool),
        (∀ n buf, doRead rng.priv_ buffer wait = (.ok n, buf) →
            read_callback doRead rng buffer wait = ((n : Int), buf)
            ∧ 0 ≤ ((n : Int)))
        ∧ (∀ e buf, doRead rng.priv_ buffer wait = (.error e, buf) →
            read_callback doRead rng buffer wait = (e.toErrno, buf)
            ∧ (read_callback doRead rng buffer wait).1 < 0)) := by
  have herrno : ∀ e : KError, e.toErrno < 0 := by
    intro e; cases e <;> norm_num [KError.toErrno]
  constructor
  · intro doInit
    constructor
    · intro hok
      simp [init_callback, fromKernelResult, hok, Except.map]
    · intro e herr
      have h1 : init_callback doInit rng = e.toErrno := by
        simp [init_callback, fromKernelResult, herr, Except.map]
      rw [h1]
      exact ⟨rfl, herrno e⟩
  · intro doRead buffer wait
    constructor
    · intro n buf hok
      simp [read_callback, hok]
    · intro e buf herr
      have h1 : read_callback doRead rng buffer wait = (e.toErrno, buf) := by
        simp [read_callback, herr]
      rw [h1]
      exact ⟨rfl, herrno e⟩

/-- C8 witness: the trampoline convention at a concrete instance — a
successful `init` yields 0, a timed-out `read` yields the negative errno with
the buffer passed through. -/
theorem c8_trampoline_convention_witness :
    init_callback (fun _ : Nat => Except.ok ()) ⟨5⟩ = 0
    ∧ read_callback (fun _ buf _ => (Except.error KError.ETIMEDOUT, buf))
        (⟨5⟩ : HwrngHandle Nat) [1, 2] true = (KError.ETIMEDOUT.toErrno, [1, 2]) :=
  ⟨((c8_trampoline_convention Nat ⟨5⟩).1 _).1 rfl,
   ((((c8_trampoline_convention Nat ⟨5⟩).2 _ [1, 2] true).2) .ETIMEDOUT [1, 2] rfl).1⟩

/-- C5 counterexample: with interval 200, a nonzero budget T = 200 and a
predicate that becomes true only at poll k = 3 (under the exact-interval time
model the claim's k×interval ≤ T criterion presupposes), k×interval = 600
exceeds the budget even allowing one extra read's worth (T + interval = 400),
yet the loop returns the true value instead of Timeout. -/
theorem c5_claim_counterexample :
    Option.map Prod.fst
        (readPollTimeout ⟨fun m => m, exactTimes 0 200⟩ (fun v => decide (3 ≤ v))
          200 200 false 10)
      = some (Except.ok 3)
    ∧ ¬ 3 * 200 ≤ 200 + 200 := ⟨rfl, by decide⟩

/-- C5 (amended): the poll primitive returns the value as soon as the
predicate holds (a predicate true on the first read returns immediately after
exactly one read); on timeout it performs one last read and fails with Timeout
only if the predicate still does not hold; between unsatisfied reads it calls
`usleep_range(interval/4 + 1, interval)` when the interval is nonzero and
busy-spins (no sleep at all) when it is 0; and for a predicate true only from
poll k on, under the exact-interval time model, it returns the true value iff
(k − 2)×interval ≤ T — i.e. up to two reads beyond the budget, not one — and
Timeout otherwise. -/
theorem c5_poll_characterization (i T t0 k fuel : Nat)
    (hi : 0 < i) (hT : 0 < T) (hfuel : k + 1 ≤ fuel) :
    (Option.map Prod.fst
        (readPollTimeout ⟨fun m => m, exactTimes t0 i⟩ (fun v => decide (k ≤ v))
          i T false fuel)
      = some (if (k - 2) * i ≤ T then Except.ok k else Except.error .ETIMEDOUT))
    ∧ (∀ (α : Type) (env : PollEnv α) (cond : α → Bool) (s T' : Nat) (sb : Bool)
          (f : Nat) (r : Except KError α) (tr : List PollEvent),
        readPollTimeout env cond s T' sb f = some (r, tr) →
        ∀ lo hi', PollEvent.sleep lo hi' ∈ tr → lo = (s >>> 2) + 1 ∧ hi' = s)
    ∧ (∀ (α : Type) (env : PollEnv α) (cond : α → Bool) (T' : Nat)
          (f : Nat) (r : Except KError α) (tr : List PollEvent),
        readPollTimeout env cond 0 T' false f = some (r, tr) →
        ∀ lo hi', PollEvent.sleep lo hi' ∉ tr)
    ∧ (∀ (α : Type) (env : PollEnv α) (cond : α → Bool) (s T' : Nat) (f : Nat),
        cond (env.op 0) = true → 1 ≤ f →
        readPollTimeout env cond s T' false f = some (.ok (env.op 0), [.read 0])) := by
  refine ⟨?_, ?_, ?_, ?_⟩
  · have h1 := pollLoopAux_char k i T t0 hi hT fuel 0 []
      (Nat.zero_le k) (by omega) (fun j hj => absurd hj (Nat.not_lt_zero j))
    have heq : readPollTimeout ⟨fun m => m, exactTimes t0 i⟩ (fun v => decide (k ≤ v))
        i T false fuel
        = pollLoopAux ⟨fun m => m, exactTimes t0 i⟩ (fun v => decide (k ≤ v))
          i T (exactTimes t0 i 0 + T) fuel 0 [] := by
      simp [readPollTimeout]
    have hcond : (k ≤ T / i + 2) ↔ ((k - 2) * i ≤ T) := by
      rw [← Nat.le_div_iff_mul_le hi]
      generalize T / i = q
      omega
    have ht0 : exactTimes t0 i 0 = t0 := by simp [exactTimes]
    rw [heq, ht0, h1, if_congr hcond rfl rfl]
  · intro α env cond s T' sb f r tr h
    refine pollLoopAux_sleep_shape env cond s T' _ f 0 _ tr r ?_ h
    intro lo hi' hmem
    split at hmem <;> simp_all
  · intro α env cond T' f r tr h
    refine pollLoopAux_no_sleep env cond T' _ f 0 _ tr r ?_ h
    intro lo hi' hmem
    split at hmem <;> simp_all
  · intro α env cond s T' f hc hf
    obtain ⟨f', rfl⟩ : ∃ f', f = f' + 1 := ⟨f - 1, by omega⟩
    simp [readPollTimeout, pollLoopAux, hc]

/-- C5 witness: the amended characterization at interval 200, budget 1000,
k = 2 — the predicate becomes true within the budget and the loop returns the
value 2. -/
theorem c5_poll_characterization_witness :
    Option.map Prod.fst
        (readPollTimeout ⟨fun m => m, exactTimes 0 200⟩ (fun v => decide (2 ≤ v))
          200 1000 false 10)
      = some (if (2 - 2) * 200 ≤ 1000 then Except.ok 2 else Except.error .ETIMEDOUT) :=
  (c5_poll_characterization 200 1000 0 2 10 (by decide) (by decide) (by decide)).1

/-- C6: with a timeout budget of 0 the poll primitive never returns the
Timeout error whatever the fuel; with a predicate that never holds it is still
retrying when any amount of fuel runs out; a predicate true on the first read
returns that value immediately, having performed exactly one read; and a
predicate first true at poll k is retried up to and returns that read's value
given fuel for k + 1 iterations. -/
theorem c6_zero_timeout (α : Type) (env : PollEnv α) (cond : α → Bool)
    (sleep_us : Nat) (sb : Bool) (fuel : Nat) :
    (∀ (e : KError) (tr : List PollEvent),
        readPollTimeout env cond sleep_us 0 sb fuel ≠ some (.error e, tr))
    ∧ ((∀ m, cond (env.op m) = false) →
        readPollTimeout env cond sleep_us 0 sb fuel = none)
    ∧ (cond (env.op 0) = true → 1 ≤ fuel →
        readPollTimeout env cond sleep_us 0 false fuel
          = some (.ok (env.op 0), [.read 0]))
    ∧ (∀ k : Nat, cond (env.op k) = true → (∀ m, m < k → cond (env.op m) = false) →
        k + 1 ≤ fuel →
        ∃ trR, readPollTimeout env cond sleep_us 0 sb fuel
          = some (.ok (env.op k), trR)) := by
  refine ⟨?_, ?_, ?_, ?_⟩
  · intro e tr
    exact pollLoopAux_ne_error_of_zero env cond sleep_us _ fuel 0 _ tr e
  · intro hc
    exact pollLoopAux_none_of_never env cond sleep_us _ hc fuel 0 _
  · intro hc hfuel
    obtain ⟨f, rfl⟩ : ∃ f, fuel = f + 1 := ⟨fuel - 1, by omega⟩
    simp [readPollTimeout, pollLoopAux, hc]
  · intro k hk hbefore hfuel
    exact pollLoopAux_zero_succeeds env cond sleep_us _ k hk hbefore fuel 0 _
      (Nat.zero_le k) (by omega)

/-- C6 witness: at a concrete environment with budget 0, the poll neither
times out, nor finishes when the predicate never holds, and returns
immediately when the predicate holds on the first read. -/
theorem c6_zero_timeout_witness :
    (readPollTimeout ⟨fun _ => (7 : Nat), fun _ => 0⟩ (fun v => decide (v = 9))
        200 0 false 5 ≠ some (.error .ETIMEDOUT, []))
    ∧ readPollTimeout ⟨fun _ => (7 : Nat), fun _ => 0⟩ (fun v => decide (v = 9))
        200 0 false 5 = none
    ∧ readPollTimeout ⟨fun _ => (7 : Nat), fun _ => 0⟩ (fun v => decide (v = 7))
        200 0 false 5 = some (.ok 7, [.read 0])
    ∧ ∃ trR, readPollTimeout ⟨fun n => n, fun _ => 0⟩ (fun v => decide (2 ≤ v))
        200 0 false 5 = some (.ok 2, trR) :=
  ⟨(c6_zero_timeout Nat ⟨fun _ => 7, fun _ => 0⟩ (fun v => decide (v = 9))
      200 false 5).1 .ETIMEDOUT [],
   (c6_zero_timeout Nat ⟨fun _ => 7, fun _ => 0⟩ (fun v => decide (v = 9))
      200 false 5).2.1 (fun _ => rfl),
   (c6_zero_timeout Nat ⟨fun _ => 7, fun _ => 0⟩ (fun v => decide (v = 7))
      200 false 5).2.2.1 (by decide) (by decide),
   (c6_zero_timeout Nat ⟨fun n => n, fun _ => 0⟩ (fun v => decide (2 ≤ v))
      200 false 5).2.2.2 2 (by decide) (fun m hm => by
        interval_cases m <;> decide) (by decide)⟩

end ExynosTrng
